import Mathlib

/-!
Verification of the OSF collections API slice (`api/collections/views.py`):
the default collection-list query, the scoped linked-node and
linked-registration list views, the legacy node-links list, single node-link
deletion, bulk-destroy permission gating, collection lookup, and the
relationship set-reconciliation algorithm driven by the collection
relationship endpoints.
-/

namespace OsfCollections

/-- A node-like target entity as seen by the collections views: its
polymorphic `type` column (e.g. `osf.node`, `osf.registration`,
`osf.collection`) and its soft-delete flag (`is_deleted`). -/
structure Child where
  ctype : String
  is_deleted : Bool
deriving DecidableEq, Repr

/-- A `NodeRelation` edge record (a node link): the id of the parent
collection owning it and the child target it points to. -/
structure NodeRelationRec where
  parent_id : Nat
  child : Child
deriving DecidableEq, Repr

/-- A target element of the base linked-targets queryset
(`BaseLinkedList.get_queryset`): its id and its polymorphic `type` column. -/
structure TargetRec where
  tid : Nat
  ttype : String
deriving DecidableEq, Repr

/-- `LinkedNodesList.get_queryset`: the node-scoped linked list applies
`.exclude(type='osf.registration')` to the base linked-targets queryset. -/
def linkedNodesList_get_queryset (base : List TargetRec) : List TargetRec :=
  base.filter (fun t => !(t.ttype == "osf.registration"))

/-- `LinkedRegistrationsList.get_queryset`: the registration-scoped linked
list applies `.filter(type='osf.registration')` to the base queryset. -/
def linkedRegistrationsList_get_queryset (base : List TargetRec) : List TargetRec :=
  base.filter (fun t => t.ttype == "osf.registration")

/-- `NodeLinksList.get_queryset`: the legacy node-links list is
`node_relations.filter(child__is_deleted=False).exclude(child__type='osf.collection')`. -/
def nodeLinksList_get_queryset (node_relations : List NodeRelationRec) :
    List NodeRelationRec :=
  (node_relations.filter (fun r => r.child.is_deleted == false)).filter
    (fun r => !(r.child.ctype == "osf.collection"))

/-- The errors surfaced by the endpoints: `NotFound` (404), `Forbidden`
(403, raised as `PermissionDenied`), and `ValidationError` (400). -/
inductive ApiError
  | notFound
  | forbidden
  | validationError
deriving DecidableEq, Repr

/-- A collection record as queried by `CollectionList`: soft-delete flag,
creator id, and public-visibility flag. -/
structure CollRecord where
  is_deleted : Bool
  creator : Nat
  is_public : Bool
deriving DecidableEq, Repr

/-- The fragment of the modular-odm query language used by
`CollectionList.get_default_odm_query`: `ne`/`eq` comparisons on the
`is_deleted`, `creator` and `is_public` fields, combined with `&`. -/
inductive CollQuery
  | qIsDeletedNe (b : Bool)
  | qCreatorEq (u : Nat)
  | qIsPublicEq (b : Bool)
  | qAnd (a b : CollQuery)
deriving DecidableEq, Repr

/-- Evaluation of a `CollQuery` against one collection record, with the
standard semantics of the modular-odm `Q` operators. -/
def eval_query : CollQuery → CollRecord → Bool
  | .qIsDeletedNe b, c => c.is_deleted != b
  | .qCreatorEq u, c => c.creator == u
  | .qIsPublicEq b, c => c.is_public == b
  | .qAnd a b, c => eval_query a c && eval_query b c

/-- `CollectionList.get_default_odm_query`: excludes deleted collections and
restricts to the requester's own collections when authenticated, or to
public collections when anonymous. -/
def get_default_odm_query (user_is_anonymous : Bool) (user : Nat) : CollQuery :=
  let base_query : CollQuery := .qIsDeletedNe true
  let permission_query : CollQuery :=
    if !user_is_anonymous then .qCreatorEq user else .qIsPublicEq true
  .qAnd base_query permission_query

/-- Permission levels used by the views; bulk destroy checks `ADMIN`. -/
inductive Permission
  | admin
  | write
  | read
deriving DecidableEq, Repr

/-- `CollectionList.allow_bulk_destroy_resources`: walk the resource list and
return `False` at the first node on which the user lacks `ADMIN`
permission, `True` when every node passed. -/
def allow_bulk_destroy_resources (has_permission : Nat → Nat → Permission → Bool)
    (user : Nat) : List Nat → Bool
  | [] => true
  | node :: rest =>
    if !(has_permission node user .admin) then false
    else allow_bulk_destroy_resources has_permission user rest

/-- Modelled from the spec: the bulk-destroy driver
(`BulkDestroyJSONAPIView`, which is not part of this excerpt) consults
`allow_bulk_destroy_resources` up front and rejects the whole request with
`Forbidden` before deleting anything when it returns false; otherwise every
listed resource is removed from the store. -/
def bulk_destroy (has_permission : Nat → Nat → Permission → Bool) (user : Nat)
    (resource_list existing : List Nat) : Except ApiError (List Nat) :=
  if allow_bulk_destroy_resources has_permission user resource_list then
    .ok (existing.filter (fun c => !(resource_list.contains c)))
  else
    .error .forbidden

/-- A stored entity looked up through the collection endpoints: only its
`is_collection` flag matters to `CollectionMixin.get_node`. -/
structure CollEntity where
  is_collection : Bool
deriving DecidableEq, Repr

/-- Modelled from the spec: `get_object_or_error` (in `api/base/utils`, not
part of this excerpt) resolves an identifier in the store and raises
`NotFound` when it does not resolve to a live entity. -/
def get_object_or_error (store : List (Nat × CollEntity)) (lookup_id : Nat) :
    Except ApiError CollEntity :=
  match store.lookup lookup_id with
  | none => .error .notFound
  | some e => .ok e

/-- `CollectionMixin.get_node`: resolve the collection id via
`get_object_or_error`, raise `NotFound` when the resolved entity is not a
collection, and only then run the object-permission check (which may raise
`PermissionDenied`). -/
def collectionMixin_get_node (store : List (Nat × CollEntity))
    (check_object_permissions : Nat → Bool) (collection_id : Nat)
    (check : Bool) : Except ApiError CollEntity :=
  match get_object_or_error store collection_id with
  | .error e => .error e
  | .ok node =>
    if !node.is_collection then .error .notFound
    else if check && !(check_object_permissions collection_id) then
      .error .forbidden
    else .ok node

/-- The mutable link state of one collection seen by `NodeLinksDetail`: its
id and the node-link edges it owns. -/
structure CollState where
  cid : Nat
  relations : List NodeRelationRec
deriving DecidableEq, Repr

/-- Modelled from the spec: `Collection.rm_pointer` (in `osf.models`, not
part of this excerpt) removes a node link owned by the collection and raises
`ValueError` when the pointer does not belong to the collection
(link/parent mismatch). -/
def rm_pointer (node : CollState) (ptr : NodeRelationRec) :
    Except Unit CollState :=
  if ptr.parent_id != node.cid then .error ()
  else .ok { node with relations := node.relations.filter (fun r => !(r == ptr)) }

/-- `NodeLinksDetail.perform_destroy`: call `rm_pointer` on the collection
from the URL path and translate its `ValueError` (pointer does not belong to
the node) into a `ValidationError`. -/
def nodeLinksDetail_perform_destroy (node : CollState) (ptr : NodeRelationRec) :
    Except ApiError CollState :=
  match rm_pointer node ptr with
  | .error _ => .error .validationError
  | .ok st => .ok st

/-- Reconciliation mode of the relationship endpoints: `create-only` for
POST, `replace` for PUT/PATCH, `remove` for DELETE. -/
inductive Mode
  | createOnly
  | replace
  | remove
deriving DecidableEq, Repr

/-- Modelled from the spec: the environment the Set Reconciler
(`LinkedNodesRelationship` / `LinkedRegistrationsRelationship` in
`api/base/views.py`, not part of this excerpt) reads from: the target
entity store, per-(principal, target) read grants, and
per-(principal, collection) edit grants. -/
structure Env where
  entities : List (Nat × Child)
  readable : List (Nat × Nat)
  editable : List (Nat × Nat)

/-- Does `tid` resolve to a live entity whose type matches the endpoint's
scoped subtype `scope`? -/
def resolves_live (env : Env) (scope : String) (tid : Nat) : Bool :=
  match env.entities.lookup tid with
  | some e => !e.is_deleted && e.ctype == scope
  | none => false

/-- Read grant of a principal on a target. -/
def can_read (env : Env) (principal tid : Nat) : Bool :=
  env.readable.contains (principal, tid)

/-- Edit grant of a principal on a collection. -/
def can_edit (env : Env) (principal cid : Nat) : Bool :=
  env.editable.contains (principal, cid)

/-- The link state of one collection seen by the Reconciler: the target ids
of its node links and its modification timestamp. -/
structure LinkState where
  links : List Nat
  date_modified : Nat
deriving DecidableEq, Repr

/-- Modelled from the spec: `current_ids`, the presently linked target
identifiers filtered to live targets of the scoped subtype. -/
def current_ids (env : Env) (scope : String) (st : LinkState) : List Nat :=
  st.links.filter (resolves_live env scope)

/-- Modelled from the spec: duplicates in `requested_ids` are idempotently
collapsed (set semantics), keeping the first occurrence order. -/
def dedup_first (seen : List Nat) : List Nat → List Nat
  | [] => []
  | x :: xs =>
    if seen.contains x then dedup_first seen xs
    else x :: dedup_first (x :: seen) xs

/-- Modelled from the spec: the additions computed by step 2 of the
reconciliation algorithm, `requested − current` under `create-only` and
`replace`, empty under `remove`. -/
def to_add (mode : Mode) (req current : List Nat) : List Nat :=
  match mode with
  | .createOnly => req.filter (fun x => !(current.contains x))
  | .replace => req.filter (fun x => !(current.contains x))
  | .remove => []

/-- Modelled from the spec: the removals computed by step 2 of the
reconciliation algorithm, empty under `create-only`, `current − requested`
under `replace`, `requested ∩ current` under `remove`. -/
def to_remove (mode : Mode) (req current : List Nat) : List Nat :=
  match mode with
  | .createOnly => []
  | .replace => current.filter (fun x => !(req.contains x))
  | .remove => req.filter (fun x => current.contains x)

/-- Modelled from the spec: per-item validation of the additions in
`requested_ids` order — the existence/type check runs before the
read-permission check, and the first violation is reported. -/
def validate_adds (env : Env) (scope : String) (principal : Nat) :
    List Nat → Option ApiError
  | [] => none
  | x :: xs =>
    if !(resolves_live env scope x) then some .notFound
    else if !(can_read env principal x) then some .forbidden
    else validate_adds env scope principal xs

/-- HTTP success status of each reconciliation mode. -/
def status_of : Mode → Nat
  | .createOnly => 201
  | .replace => 200
  | .remove => 204

/-- Outcome of a successful reconciliation: the new link state, the HTTP
status, and the resulting scoped target set returned for serialization. -/
structure ReconcileResult where
  state : LinkState
  status : Nat
  result_set : List Nat
deriving DecidableEq, Repr

/-- Modelled from the spec: the Set Reconciler. Checks the edit grant up
front, collapses duplicates in `requested_ids`, computes the scoped
`current_ids`, derives `to_add`/`to_remove` by mode, validates every
addition (all-or-nothing: the first violation aborts before any mutation),
then applies the diff, bumps the modification timestamp even when the diff
is empty, and reports the post-mutation scoped set. -/
def reconcile (env : Env) (scope : String) (principal cid : Nat) (mode : Mode)
    (requested_ids : List Nat) (st : LinkState) : Except ApiError ReconcileResult :=
  if !(can_edit env principal cid) then .error .forbidden
  else
    let req := dedup_first [] requested_ids
    let current := current_ids env scope st
    let adds := to_add mode req current
    let removes := to_remove mode req current
    match validate_adds env scope principal adds with
    | some e => .error e
    | none =>
      let new_links := (st.links ++ adds).filter (fun x => !(removes.contains x))
      let new_st : LinkState :=
        { links := new_links, date_modified := st.date_modified + 1 }
      .ok { state := new_st
            status := status_of mode
            result_set := current_ids env scope new_st }

/-! Theorems. -/

/-- Membership in `dedup_first`: an id survives collapsing iff it occurs in
the input and was not already seen. -/
theorem mem_dedup_first (x : Nat) (l : List Nat) : ∀ seen : List Nat,
    (x ∈ dedup_first seen l ↔ x ∈ l ∧ x ∉ seen) := by
  induction l with
  | nil => intro seen; simp [dedup_first]
  | cons y ys ih =>
    intro seen
    by_cases h : y ∈ seen
    · have hc : seen.contains y = true := by simpa using h
      simp only [dedup_first, hc, if_pos]
      rw [ih seen]
      simp only [List.mem_cons]
      constructor
      · rintro ⟨hxy, hxs⟩
        exact ⟨Or.inr hxy, hxs⟩
      · rintro ⟨hor, hxs⟩
        rcases hor with rfl | hxy
        · exact absurd h hxs
        · exact ⟨hxy, hxs⟩
    · have hc : seen.contains y = false := by simpa using h
      simp only [dedup_first, hc, Bool.false_eq_true, if_neg, not_false_iff]
      simp only [List.mem_cons]
      rw [ih (y :: seen)]
      simp only [List.mem_cons]
      constructor
      · rintro (rfl | ⟨hxy, hxs⟩)
        · exact ⟨Or.inl rfl, h⟩
        · exact ⟨Or.inr hxy, fun hs => hxs (Or.inr hs)⟩
      · rintro ⟨hor, hxs⟩
        by_cases hxy2 : x = y
        · exact Or.inl hxy2
        · rcases hor with rfl | hxy
          · exact Or.inl rfl
          · refine Or.inr ⟨hxy, fun hs => ?_⟩
            rcases hs with rfl | hs
            · exact hxy2 rfl
            · exact hxs hs

/-- `dedup_first` produces a duplicate-free list. -/
theorem dedup_first_nodup (l : List Nat) : ∀ seen : List Nat,
    (dedup_first seen l).Nodup := by
  induction l with
  | nil => intro seen; simp [dedup_first]
  | cons y ys ih =>
    intro seen
    by_cases h : y ∈ seen
    · have hc : seen.contains y = true := by simpa using h
      simpa only [dedup_first, hc, if_pos] using ih seen
    · have hc : seen.contains y = false := by simpa using h
      simp only [dedup_first, hc, Bool.false_eq_true, if_neg, not_false_iff]
      rw [List.nodup_cons]
      refine ⟨?_, ih (y :: seen)⟩
      rw [mem_dedup_first]
      rintro ⟨-, hmem⟩
      exact hmem (List.mem_cons_self y seen)

/-- `validate_adds` succeeds exactly when every addition resolves to a live
entity of the scoped subtype and is readable by the principal. -/
theorem validate_adds_eq_none (env : Env) (scope : String) (principal : Nat)
    (l : List Nat) :
    validate_adds env scope principal l = none ↔
      ∀ x ∈ l, resolves_live env scope x = true ∧
        can_read env principal x = true := by
  induction l with
  | nil => simp [validate_adds]
  | cons y ys ih =>
    cases hy : resolves_live env scope y
    · simp [validate_adds, hy]
    · cases hr : can_read env principal y
      · simp [validate_adds, hy, hr]
      · simp [validate_adds, hy, hr, ih]

/-- Characterization of a reconciliation that passes the edit check and the
per-item validation: it succeeds with the applied diff, the bumped
timestamp, and the post-mutation scoped set. -/
theorem reconcile_ok_eq (env : Env) (scope : String) (principal cid : Nat)
    (mode : Mode) (requested : List Nat) (st : LinkState)
    (hedit : can_edit env principal cid = true)
    (hval : validate_adds env scope principal
      (to_add mode (dedup_first [] requested) (current_ids env scope st)) = none) :
    reconcile env scope principal cid mode requested st =
      .ok ⟨⟨(st.links ++
              to_add mode (dedup_first [] requested) (current_ids env scope st)).filter
              (fun x => !((to_remove mode (dedup_first [] requested)
                (current_ids env scope st)).contains x)),
            st.date_modified + 1⟩,
           status_of mode,
           current_ids env scope
             ⟨(st.links ++
                 to_add mode (dedup_first [] requested) (current_ids env scope st)).filter
                 (fun x => !((to_remove mode (dedup_first [] requested)
                   (current_ids env scope st)).contains x)),
               st.date_modified + 1⟩⟩ := by
  simp [reconcile, hedit, hval]

/-- A reconciliation whose per-item validation reports a violation aborts
with exactly that error. -/
theorem reconcile_error_eq (env : Env) (scope : String) (principal cid : Nat)
    (mode : Mode) (requested : List Nat) (st : LinkState) (e : ApiError)
    (hedit : can_edit env principal cid = true)
    (hval : validate_adds env scope principal
      (to_add mode (dedup_first [] requested) (current_ids env scope st)) = some e) :
    reconcile env scope principal cid mode requested st = .error e := by
  simp [reconcile, hedit, hval]

/-- Bridge between boolean `contains` and membership on id lists. -/
theorem contains_eq_true_iff_mem (l : List Nat) (x : Nat) :
    l.contains x = true ↔ x ∈ l := by simp

/-- Bridge between negated boolean `contains` and non-membership. -/
theorem not_contains_eq_true_iff (l : List Nat) (x : Nat) :
    (!(l.contains x)) = true ↔ x ∉ l := by simp

/-- Removing the scoped current set from the link list leaves no element
that still satisfies the scope filter. -/
theorem filter_remove_filter_eq_nil (l : List Nat) (p : Nat → Bool) :
    (l.filter (fun x => !((l.filter p).contains x))).filter p = [] := by
  rw [List.eq_nil_iff_forall_not_mem]
  intro z hz
  simp [List.mem_filter] at hz
  aesop

/-- Closed form of an empty replace: it always validates, removes the
scoped current set from the links, bumps the timestamp and reports the
post-mutation scoped set. -/
theorem reconcile_empty_replace_eq (env : Env) (scope : String)
    (principal cid : Nat) (st : LinkState)
    (hedit : can_edit env principal cid = true) :
    reconcile env scope principal cid .replace [] st =
      .ok ⟨⟨st.links.filter (fun x => !((current_ids env scope st).contains x)),
            st.date_modified + 1⟩, 200,
           (st.links.filter (fun x => !((current_ids env scope st).contains x))).filter
             (resolves_live env scope)⟩ := by
  have h := reconcile_ok_eq env scope principal cid .replace [] st hedit
    (by simp [dedup_first, to_add, validate_adds])
  rw [h]
  simp [dedup_first, to_add, to_remove, current_ids, status_of]

/-- C1: additions are validated per item in request order, with the
existence/type check strictly before the read-permission check, and the
first violation aborts the whole reconciliation: with current links
`{a}` and a replace request `[a, b, x]` where `x` does not resolve, the
result is `NotFound` (no new link, not even for the valid `b`, since no
success state is produced), independently of whether the principal could
read `x`; the same holds in create-only mode. -/
theorem reconcile_all_or_nothing (env : Env) (scope : String)
    (principal cid a b x dm : Nat)
    (hedit : can_edit env principal cid = true)
    (ha : resolves_live env scope a = true)
    (hb : resolves_live env scope b = true)
    (hrb : can_read env principal b = true)
    (hx : resolves_live env scope x = false)
    (hab : a ≠ b) (hax : a ≠ x) (hbx : b ≠ x) :
    reconcile env scope principal cid .replace [a, b, x] ⟨[a], dm⟩ =
      .error .notFound ∧
    reconcile env scope principal cid .createOnly [a, b, x] ⟨[a], dm⟩ =
      .error .notFound ∧
    (∀ y rest, resolves_live env scope y = false →
      validate_adds env scope principal (y :: rest) = some .notFound) := by
  have hded : dedup_first [] [a, b, x] = [a, b, x] := by
    simp [dedup_first, Ne.symm hab, Ne.symm hax, Ne.symm hbx]
  have hcur : current_ids env scope ⟨[a], dm⟩ = [a] := by
    simp [current_ids, ha]
  have hval : validate_adds env scope principal [b, x] = some .notFound := by
    simp [validate_adds, hb, hrb, hx]
  refine ⟨?_, ?_, ?_⟩
  · apply reconcile_error_eq env scope principal cid .replace [a, b, x]
      ⟨[a], dm⟩ .notFound hedit
    rw [hded, hcur]
    have hadds : to_add .replace [a, b, x] [a] = [b, x] := by
      simp [to_add, Ne.symm hab, Ne.symm hax]
    rw [hadds]
    exact hval
  · apply reconcile_error_eq env scope principal cid .createOnly [a, b, x]
      ⟨[a], dm⟩ .notFound hedit
    rw [hded, hcur]
    have hadds : to_add .createOnly [a, b, x] [a] = [b, x] := by
      simp [to_add, Ne.symm hab, Ne.symm hax]
    rw [hadds]
    exact hval
  · intro y rest hy
    simp [validate_adds, hy]

/-- Witness for C1: current links `{1}`, replace request `[1, 2, 3]` where
id 3 is absent from the store, evaluated concretely. -/
theorem reconcile_all_or_nothing_witness :
    reconcile ⟨[(1, ⟨"osf.node", false⟩), (2, ⟨"osf.node", false⟩)],
        [(7, 1), (7, 2)], [(7, 9)]⟩ "osf.node" 7 9 .replace [1, 2, 3]
      ⟨[1], 0⟩ = .error .notFound :=
  (reconcile_all_or_nothing
    ⟨[(1, ⟨"osf.node", false⟩), (2, ⟨"osf.node", false⟩)],
      [(7, 1), (7, 2)], [(7, 9)]⟩ "osf.node" 7 9 1 2 3 0
    (by decide) (by decide) (by decide) (by decide) (by decide)
    (by decide) (by decide) (by decide)).1

/-- C3: replace with an empty `requested_ids` is a legal clear-all
operation: it succeeds with 200, the resulting scoped link set is empty,
every currently linked scoped target is physically removed, and the
modification timestamp is updated — also when the diff is empty, since the
timestamp bump does not depend on `to_add`/`to_remove`. -/
theorem reconcile_empty_replace_clears (env : Env) (scope : String)
    (principal cid : Nat) (st : LinkState)
    (hedit : can_edit env principal cid = true) :
    ∃ r, reconcile env scope principal cid .replace [] st = .ok r ∧
      r.status = 200 ∧ r.result_set = [] ∧
      (∀ x ∈ current_ids env scope st, x ∉ r.state.links) ∧
      r.state.date_modified = st.date_modified + 1 := by
  refine ⟨_, reconcile_empty_replace_eq env scope principal cid st hedit,
    rfl, ?_, ?_, rfl⟩
  · simp only [current_ids]
    exact filter_remove_filter_eq_nil st.links (resolves_live env scope)
  · intro x hx hmem
    have hp := List.of_mem_filter hmem
    simp at hp
    exact hp hx

/-- Witness for C3: clearing a collection that links node 1 and
registration-typed target 4 under the node scope. -/
theorem reconcile_empty_replace_clears_witness :
    ∃ r, reconcile ⟨[(1, ⟨"osf.node", false⟩), (4, ⟨"osf.registration", false⟩)],
        [(7, 1)], [(7, 9)]⟩ "osf.node" 7 9 .replace [] ⟨[1, 4], 5⟩ = .ok r ∧
      r.status = 200 ∧ r.result_set = [] ∧
      (∀ x ∈ current_ids ⟨[(1, ⟨"osf.node", false⟩),
          (4, ⟨"osf.registration", false⟩)], [(7, 1)], [(7, 9)]⟩ "osf.node"
          ⟨[1, 4], 5⟩, x ∉ r.state.links) ∧
      r.state.date_modified = 6 :=
  reconcile_empty_replace_clears
    ⟨[(1, ⟨"osf.node", false⟩), (4, ⟨"osf.registration", false⟩)],
      [(7, 1)], [(7, 9)]⟩ "osf.node" 7 9 ⟨[1, 4], 5⟩ (by decide)

/-- C4: a replace whose requested ids — after collapsing duplicates — form
exactly the current scoped link set leaves the link set unchanged and
returns 200, for any ordering and multiplicity of the request; and in
general a successful replace over a duplicate-free link set produces at
most one link per unique id. -/
theorem reconcile_replace_idempotent (env : Env) (scope : String)
    (principal cid : Nat) (st : LinkState) (requested : List Nat)
    (hedit : can_edit env principal cid = true)
    (hset : ∀ x, x ∈ requested ↔ x ∈ current_ids env scope st) :
    (∃ r, reconcile env scope principal cid .replace requested st = .ok r ∧
      r.state.links = st.links ∧ r.status = 200) ∧
    (∀ requested2 r2, st.links.Nodup →
      reconcile env scope principal cid .replace requested2 st = .ok r2 →
      r2.state.links.Nodup) := by
  constructor
  · have hadds : to_add .replace (dedup_first [] requested)
        (current_ids env scope st) = [] := by
      simp only [to_add]
      rw [List.eq_nil_iff_forall_not_mem]
      intro z hz
      rw [List.mem_filter] at hz
      obtain ⟨hzd, hzc⟩ := hz
      have hzr : z ∈ requested := ((mem_dedup_first z requested []).mp hzd).1
      have hzcur : z ∈ current_ids env scope st := (hset z).mp hzr
      simp at hzc
      exact hzc hzcur
    have hrem : to_remove .replace (dedup_first [] requested)
        (current_ids env scope st) = [] := by
      simp only [to_remove]
      rw [List.eq_nil_iff_forall_not_mem]
      intro z hz
      rw [List.mem_filter] at hz
      obtain ⟨hzc, hznr⟩ := hz
      have hzr : z ∈ requested := (hset z).mpr hzc
      have hzd : z ∈ dedup_first [] requested :=
        (mem_dedup_first z requested []).mpr ⟨hzr, by simp⟩
      simp at hznr
      exact hznr hzd
    have hok := reconcile_ok_eq env scope principal cid .replace requested st
      hedit (by rw [hadds]; rfl)
    refine ⟨_, hok, ?_, rfl⟩
    simp [hadds, hrem]
  · intro requested2 r2 hnd hok
    cases hval : validate_adds env scope principal
        (to_add .replace (dedup_first [] requested2) (current_ids env scope st)) with
    | some e =>
      rw [reconcile_error_eq env scope principal cid .replace requested2 st e
        hedit hval] at hok
      cases hok
    | none =>
      rw [reconcile_ok_eq env scope principal cid .replace requested2 st
        hedit hval] at hok
      injection hok with hok
      have hlinks : r2.state.links =
          (st.links ++ to_add .replace (dedup_first [] requested2)
            (current_ids env scope st)).filter
            (fun x => !((to_remove .replace (dedup_first [] requested2)
              (current_ids env scope st)).contains x)) := by
        rw [← hok]
      rw [hlinks]
      apply List.Nodup.filter
      have hadds2 : (to_add .replace (dedup_first [] requested2)
          (current_ids env scope st)).Nodup := by
        simp only [to_add]
        exact (dedup_first_nodup requested2 []).filter _
      have hdis : st.links.Disjoint
          (to_add .replace (dedup_first [] requested2)
            (current_ids env scope st)) := by
        intro a hal har
        have hres : resolves_live env scope a = true :=
          ((validate_adds_eq_none env scope principal _).mp hval a har).1
        simp only [to_add] at har
        rw [List.mem_filter] at har
        obtain ⟨had, hac⟩ := har
        have hacur : a ∈ current_ids env scope st := by
          simp only [current_ids]
          rw [List.mem_filter]
          exact ⟨hal, hres⟩
        simp at hac
        exact hac hacur
      exact hnd.append hadds2 hdis

/-- Witness for C4: replacing `{1}` by the duplicate-laden request
`[1, 1]` keeps the single link and returns 200. -/
theorem reconcile_replace_idempotent_witness :
    ∃ r, reconcile ⟨[(1, ⟨"osf.node", false⟩)], [(7, 1)], [(7, 9)]⟩
        "osf.node" 7 9 .replace [1, 1] ⟨[1], 5⟩ = .ok r ∧
      r.state.links = [1] ∧ r.status = 200 :=
  (reconcile_replace_idempotent ⟨[(1, ⟨"osf.node", false⟩)], [(7, 1)], [(7, 9)]⟩
    "osf.node" 7 9 ⟨[1], 5⟩ [1, 1] (by decide)
    (fun x => by simp [current_ids, resolves_live])).1

/-- C5: a remove-mode reconciliation never fails per-item validation: with
edit permission it always succeeds with 204; removing ids that are not
currently linked is a no-op on the link set rather than an error; and an
immediate second remove of the same ids changes nothing (idempotence). -/
theorem reconcile_remove_idempotent (env : Env) (scope : String)
    (principal cid : Nat) (st : LinkState) (requested : List Nat)
    (hedit : can_edit env principal cid = true) :
    (∃ r, reconcile env scope principal cid .remove requested st = .ok r ∧
      r.status = 204) ∧
    ((∀ x ∈ requested, x ∉ current_ids env scope st) →
      ∃ r, reconcile env scope principal cid .remove requested st = .ok r ∧
        r.state.links = st.links) ∧
    (∀ r, reconcile env scope principal cid .remove requested st = .ok r →
      ∃ r2, reconcile env scope principal cid .remove requested r.state = .ok r2 ∧
        r2.state.links = r.state.links) := by
  have hok := reconcile_ok_eq env scope principal cid .remove requested st
    hedit rfl
  refine ⟨⟨_, hok, rfl⟩, ?_, ?_⟩
  · intro habs
    have hrem : to_remove .remove (dedup_first [] requested)
        (current_ids env scope st) = [] := by
      simp only [to_remove]
      rw [List.eq_nil_iff_forall_not_mem]
      intro z hz
      rw [List.mem_filter] at hz
      obtain ⟨hzd, hzc⟩ := hz
      have hzr : z ∈ requested := ((mem_dedup_first z requested []).mp hzd).1
      have hzcur : z ∈ current_ids env scope st := by simpa using hzc
      exact habs z hzr hzcur
    refine ⟨_, hok, ?_⟩
    simp [to_add, hrem]
  · intro r hokr
    rw [hok] at hokr
    injection hokr with hokr
    have hstate : r.state =
        ⟨(st.links ++ to_add .remove (dedup_first [] requested)
            (current_ids env scope st)).filter
            (fun x => !((to_remove .remove (dedup_first [] requested)
              (current_ids env scope st)).contains x)),
          st.date_modified + 1⟩ := by
      rw [← hokr]
    rw [hstate]
    have hok2 := reconcile_ok_eq env scope principal cid .remove requested
      ⟨(st.links ++ to_add .remove (dedup_first [] requested)
          (current_ids env scope st)).filter
          (fun x => !((to_remove .remove (dedup_first [] requested)
            (current_ids env scope st)).contains x)),
        st.date_modified + 1⟩ hedit rfl
    have hrem2 : to_remove .remove (dedup_first [] requested)
        (current_ids env scope
          ⟨(st.links ++ to_add .remove (dedup_first [] requested)
              (current_ids env scope st)).filter
              (fun x => !((to_remove .remove (dedup_first [] requested)
                (current_ids env scope st)).contains x)),
            st.date_modified + 1⟩) = [] := by
      simp only [to_remove]
      rw [List.eq_nil_iff_forall_not_mem]
      intro z hz
      rw [List.mem_filter] at hz
      obtain ⟨hzd, hzc2⟩ := hz
      simp only [contains_eq_true_iff_mem] at hzc2
      simp only [current_ids] at hzc2
      rw [List.mem_filter] at hzc2
      obtain ⟨hzlinks, hzres⟩ := hzc2
      rw [List.mem_filter] at hzlinks
      obtain ⟨hzst, hznrem⟩ := hzlinks
      simp only [to_add, List.append_nil] at hzst
      simp only [not_contains_eq_true_iff] at hznrem
      apply hznrem
      simp only [to_remove, List.mem_filter]
      refine ⟨hzd, ?_⟩
      simp only [contains_eq_true_iff_mem, current_ids, List.mem_filter]
      exact ⟨hzst, hzres⟩
    refine ⟨_, hok2, ?_⟩
    rw [hrem2]
    simp [to_add]

/-- Witness for C5: removing the absent id 2 from a collection linking only
node 1 succeeds and leaves the link set `[1]` untouched. -/
theorem reconcile_remove_idempotent_witness :
    ∃ r, reconcile ⟨[(1, ⟨"osf.node", false⟩), (2, ⟨"osf.node", false⟩)],
        [(7, 1), (7, 2)], [(7, 9)]⟩ "osf.node" 7 9 .remove [2]
        ⟨[1], 5⟩ = .ok r ∧ r.state.links = [1] :=
  (reconcile_remove_idempotent
    ⟨[(1, ⟨"osf.node", false⟩), (2, ⟨"osf.node", false⟩)],
      [(7, 1), (7, 2)], [(7, 9)]⟩ "osf.node" 7 9 ⟨[1], 5⟩ [2]
    (by decide)).2.1 (by decide)

/-- C2: for every base linked-targets queryset, the node-scoped list view
returns only targets whose type is not `osf.registration`, the
registration-scoped list view returns only targets whose type is
`osf.registration`, and no target appears in both scoped views. -/
theorem scoped_type_filtering (base : List TargetRec) (t : TargetRec) :
    (t ∈ linkedNodesList_get_queryset base → t.ttype ≠ "osf.registration") ∧
    (t ∈ linkedRegistrationsList_get_queryset base → t.ttype = "osf.registration") ∧
    ¬(t ∈ linkedNodesList_get_queryset base ∧
      t ∈ linkedRegistrationsList_get_queryset base) := by
  refine ⟨?_, ?_, ?_⟩
  · intro ht
    simp [linkedNodesList_get_queryset, List.mem_filter] at ht
    exact ht.2
  · intro ht
    simp [linkedRegistrationsList_get_queryset, List.mem_filter] at ht
    exact ht.2
  · rintro ⟨h1, h2⟩
    simp [linkedNodesList_get_queryset, List.mem_filter] at h1
    simp [linkedRegistrationsList_get_queryset, List.mem_filter] at h2
    exact h1.2 h2.2

/-- Witness for C2 on a concrete mixed collection. -/
theorem scoped_type_filtering_witness :
    (⟨2, "osf.registration"⟩ : TargetRec).ttype = "osf.registration" ∧
    ¬((⟨2, "osf.registration"⟩ : TargetRec) ∈
        linkedNodesList_get_queryset [⟨1, "osf.node"⟩, ⟨2, "osf.registration"⟩] ∧
      (⟨2, "osf.registration"⟩ : TargetRec) ∈
        linkedRegistrationsList_get_queryset [⟨1, "osf.node"⟩, ⟨2, "osf.registration"⟩]) :=
  ⟨(scoped_type_filtering [⟨1, "osf.node"⟩, ⟨2, "osf.registration"⟩]
      ⟨2, "osf.registration"⟩).2.1 (by decide),
   (scoped_type_filtering [⟨1, "osf.node"⟩, ⟨2, "osf.registration"⟩]
      ⟨2, "osf.registration"⟩).2.2⟩

/-- C8: every link returned by the legacy node-links list has a live
(non-soft-deleted) target that is not itself a collection. -/
theorem node_links_list_live_non_collection (node_relations : List NodeRelationRec)
    (r : NodeRelationRec) (hr : r ∈ nodeLinksList_get_queryset node_relations) :
    r.child.is_deleted = false ∧ r.child.ctype ≠ "osf.collection" := by
  simp only [nodeLinksList_get_queryset] at hr
  have h2 := List.of_mem_filter hr
  have h1 := List.of_mem_filter (List.mem_of_mem_filter hr)
  simp at h1 h2
  exact ⟨h1, h2⟩

/-- Witness for C8 on a concrete relation list holding a live node, a
collection-typed target and a soft-deleted target. -/
theorem node_links_list_live_non_collection_witness :
    (⟨9, ⟨"osf.node", false⟩⟩ : NodeRelationRec).child.is_deleted = false ∧
    (⟨9, ⟨"osf.node", false⟩⟩ : NodeRelationRec).child.ctype ≠ "osf.collection" :=
  node_links_list_live_non_collection
    [⟨9, ⟨"osf.node", false⟩⟩, ⟨9, ⟨"osf.collection", false⟩⟩, ⟨9, ⟨"osf.node", true⟩⟩]
    ⟨9, ⟨"osf.node", false⟩⟩ (by decide)

/-- C10: the default collections-list query matches exactly the
non-deleted collections created by the requester when authenticated, and
the non-deleted public collections when anonymous; in particular an
anonymous principal never sees a private or deleted collection. -/
theorem default_odm_query_characterization (anon : Bool) (user : Nat) (c : CollRecord) :
    (eval_query (get_default_odm_query anon user) c = true ↔
      (c.is_deleted = false ∧
        (if anon = true then c.is_public = true else c.creator = user))) ∧
    (anon = true → (c.is_deleted = true ∨ c.is_public = false) →
      eval_query (get_default_odm_query anon user) c = false) := by
  constructor
  · cases anon <;>
      cases c with
      | mk d cr pub =>
        cases d <;> cases pub <;>
          simp [eval_query, get_default_odm_query]
  · rintro rfl h
    cases c with
    | mk d cr pub =>
      cases d <;> cases pub <;>
        simp_all [eval_query, get_default_odm_query]

/-- Witness for C10: a private, non-deleted collection is excluded from the
anonymous default listing. -/
theorem default_odm_query_characterization_witness :
    eval_query (get_default_odm_query true 0) ⟨false, 5, false⟩ = false :=
  (default_odm_query_characterization true 0 ⟨false, 5, false⟩).2 rfl (Or.inr rfl)

/-- The early-exit loop of `allow_bulk_destroy_resources` returns true
exactly when the user holds admin permission on every listed resource. -/
theorem allow_bulk_destroy_resources_iff
    (has_permission : Nat → Nat → Permission → Bool) (user : Nat)
    (resource_list : List Nat) :
    allow_bulk_destroy_resources has_permission user resource_list = true ↔
      ∀ node ∈ resource_list, has_permission node user .admin = true := by
  induction resource_list with
  | nil => simp [allow_bulk_destroy_resources]
  | cons n rest ih =>
    cases h : has_permission n user .admin <;>
      simp [allow_bulk_destroy_resources, h, ih]

/-- C9: bulk delete is allowed exactly when the requester holds admin
permission on every collection in the list, and when any single item lacks
admin permission the whole request is rejected with `Forbidden` and
nothing is deleted. -/
theorem bulk_destroy_requires_admin_on_all
    (has_permission : Nat → Nat → Permission → Bool) (user : Nat)
    (resource_list existing : List Nat) :
    (allow_bulk_destroy_resources has_permission user resource_list = true ↔
      ∀ node ∈ resource_list, has_permission node user .admin = true) ∧
    ((∃ node ∈ resource_list, has_permission node user .admin = false) →
      bulk_destroy has_permission user resource_list existing = .error .forbidden) := by
  refine ⟨allow_bulk_destroy_resources_iff has_permission user resource_list, ?_⟩
  rintro ⟨n, hn, hperm⟩
  have hallow : allow_bulk_destroy_resources has_permission user resource_list = false := by
    cases hcase : allow_bulk_destroy_resources has_permission user resource_list
    · rfl
    · exfalso
      have hall :=
        (allow_bulk_destroy_resources_iff has_permission user resource_list).mp hcase
      rw [hall n hn] at hperm
      exact absurd hperm (by simp)
  simp [bulk_destroy, hallow]

/-- Witness for C9: with admin on collection 1 only, a bulk delete of
collections 1 and 2 is rejected wholesale. -/
theorem bulk_destroy_requires_admin_on_all_witness :
    bulk_destroy (fun n _ _ => n == 1) 7 [1, 2] [1, 2, 3] = .error .forbidden :=
  (bulk_destroy_requires_admin_on_all (fun n _ _ => n == 1) 7 [1, 2] [1, 2, 3]).2
    ⟨2, by decide, by decide⟩

/-- C7: when the collection id resolves to an entity that is not a
collection, `get_node` yields `NotFound` for every permission function —
the object-permission check is only reached after the existence/type
check succeeds. -/
theorem get_node_non_collection_not_found (store : List (Nat × CollEntity))
    (check_object_permissions : Nat → Bool) (check : Bool)
    (collection_id : Nat) (e : CollEntity)
    (hlook : store.lookup collection_id = some e)
    (hnc : e.is_collection = false) :
    collectionMixin_get_node store check_object_permissions collection_id check =
      .error .notFound := by
  simp [collectionMixin_get_node, get_object_or_error, hlook, hnc]

/-- Witness for C7: looking up id 3, stored as a non-collection, under a
permission function that denies everything, still reports 404 rather than
a permission error. -/
theorem get_node_non_collection_not_found_witness :
    collectionMixin_get_node [(3, ⟨false⟩)] (fun _ => false) 3 true =
      .error .notFound :=
  get_node_non_collection_not_found [(3, ⟨false⟩)] (fun _ => false) true 3 ⟨false⟩
    (by decide) rfl

/-- C6: deleting a node link whose parent is a different collection than the
one in the URL path yields `ValidationError` — not `NotFound` and not
silent success — so the link is not removed. -/
theorem node_link_delete_wrong_parent (node : CollState) (ptr : NodeRelationRec)
    (hmismatch : ptr.parent_id ≠ node.cid) :
    nodeLinksDetail_perform_destroy node ptr = .error .validationError := by
  simp [nodeLinksDetail_perform_destroy, rm_pointer, hmismatch]

/-- Witness for C6: a link owned by collection 8 deleted through
collection 9's URL. -/
theorem node_link_delete_wrong_parent_witness :
    nodeLinksDetail_perform_destroy ⟨9, []⟩ ⟨8, ⟨"osf.node", false⟩⟩ =
      .error .validationError :=
  node_link_delete_wrong_parent ⟨9, []⟩ ⟨8, ⟨"osf.node", false⟩⟩ (by decide)

end OsfCollections
